import Mathlib

/-!
Verification of the bucketeer event-persister pipeline
(pkg/eventpersister/persister/persister.go) and of the SDK gateway behaviour.
Persister definitions are translated from the Go source.  The gateway service
implementation is not part of this tree (only its table tests are), so the
gateway definitions are modelled from the specification and marked as such.
-/

namespace Bucketeer

/-! ### Generic list helpers -/

def concatAll {α : Type} : List (List α) → List α
  | [] => []
  | l :: ls => l ++ concatAll ls

def countE {α : Type} [DecidableEq α] : List α → α → Nat
  | [], _ => 0
  | x :: xs, a => (if x = a then 1 else 0) + countE xs a

/-! ### Persister data model

Shallow embedding of the protobuf messages consumed by the event persister.
The inner payload of a bus envelope is one of `EvaluationEvent`, `GoalEvent`,
`UserEvent`, `GoalBatchEvent` or `MetricsEvent`; the persister only inspects
the first three, so the payloads of the last two are not modelled.
The float `value` field of a goal event is omitted (floating point is not
modelled; no claim depends on it). -/

namespace Persister

inductive SourceId
  | unknown
  | android
  | ios
  | web
  | goalBatch
deriving DecidableEq

inductive ReasonType
  | target
  | rule
  | defaultReason
  | client
  | offVariation
  | prerequisite
deriving DecidableEq

def reasonTypeStr : ReasonType → String
  | .target => "TARGET"
  | .rule => "RULE"
  | .defaultReason => "DEFAULT"
  | .client => "CLIENT"
  | .offVariation => "OFF_VARIATION"
  | .prerequisite => "PREREQUISITE"

structure UserData where
  id : String
  data : List (String × String)
deriving DecidableEq

structure Evaluation where
  featureId : String
  featureVersion : Nat
  variationId : String
  reason : Option ReasonType
deriving DecidableEq

structure EvaluationEvent where
  sourceId : SourceId
  tag : String
  timestamp : Int
  featureId : String
  featureVersion : Nat
  userId : String
  variationId : String
  reason : Option ReasonType
  user : Option UserData
deriving DecidableEq

structure GoalEvent where
  sourceId : SourceId
  tag : String
  timestamp : Int
  goalId : String
  userId : String
  user : Option UserData
  evaluations : List Evaluation
deriving DecidableEq

structure UserEvent where
  sourceId : SourceId
  tag : String
  lastSeen : Int
  userId : String
deriving DecidableEq

inductive Event
  | evaluation (e : EvaluationEvent)
  | goal (e : GoalEvent)
  | user (e : UserEvent)
  | goalBatch
  | metrics
deriving DecidableEq

/-- Result of `userEvaluationStorage.GetUserEvaluations` (bigtable): either the
stored evaluations, `ErrKeyNotFound`, or any other storage error. -/
inductive StoreResult
  | found (evals : List Evaluation)
  | keyNotFound
  | otherError
deriving DecidableEq

/-- Result of the feature service `EvaluateFeatures` RPC. -/
inductive RpcResult
  | ok (evals : List Evaluation)
  | rpcError
deriving DecidableEq

/-- Result of `Persister.getEvaluations`: the Go function returns
`([]*Evaluation, retriable bool, error)`; the error identity is irrelevant to
the callers, which only inspect nil-ness and the retriable flag. -/
inductive GetEvalResult
  | ok (evals : List Evaluation)
  | err (retriable : Bool)
deriving DecidableEq

/-- The persister's external collaborators, as oracles:
the bigtable user-evaluations storage (`store userId env tag`),
the feature service RPC (`rpc user env tag`),
the warehouse datastore writer (`dsWrite env records`, returning the per-id
failure map with the repeatable flag), and the optional postgres row store
(`rowWrite env id` says whether the row insert succeeds). -/
structure SendEnv where
  postgresConfigured : Bool
  rowWrite : String → String → Bool
  store : String → String → String → StoreResult
  rpc : Option UserData → String → String → RpcResult
  dsWrite : String → List (String × String) → List (String × Bool)

/-- `Persister.getCurrentUserEvaluations`: thin wrapper over the storage. -/
def getCurrentUserEvaluations (E : SendEnv) (environmentNamespace userID tag : String) :
    StoreResult :=
  E.store userID environmentNamespace tag

/-- `Persister.getEvaluations` (persister.go lines 414-464): selects the
evaluations used to enrich a goal event. -/
def getEvaluations (E : SendEnv) (e : GoalEvent) (environmentNamespace : String) :
    GetEvalResult :=
  if e.sourceId = SourceId.goalBatch then
    match getCurrentUserEvaluations E environmentNamespace e.userId e.tag with
    | .found ue => .ok ue
    | .keyNotFound =>
        match E.rpc e.user environmentNamespace e.tag with
        | .ok evals => .ok evals
        | .rpcError => .err false
    | .otherError => .err true
  else if e.tag = "" then
    .ok e.evaluations
  else
    match getCurrentUserEvaluations E environmentNamespace e.userId e.tag with
    | .found ue => .ok ue
    | .keyNotFound => .ok []
    | .otherError => .err true

/-! ### Marshalling (persister.go lines 324-502)

The JSON object built by the marshal functions is abstracted to a
deterministic key=value rendering: no claim depends on the byte content of
the record, only on whether marshalling succeeds and on the repeatable flag
attached to a failure.  `json.Marshal` of the built map cannot fail for these
value types, so that error path is not modelled. -/

/-- Marshal failure kinds: `ErrUnexpectedMessageType` from the type switch
default, or a failure propagated from `getEvaluations`. -/
inductive PersistError
  | unexpectedMessageType
  | getEvaluationsError
deriving DecidableEq

/-- `userMetadataColumn` (persister.go lines 497-502). -/
def userMetadataColumn (environmentNamespace key : String) : String :=
  if environmentNamespace = "" then "user.data." ++ key
  else environmentNamespace ++ ".user.data." ++ key

def renderUserData (environmentNamespace : String) : Option UserData → String
  | none => ""
  | some u =>
      String.join (u.data.map (fun p => userMetadataColumn environmentNamespace p.1 ++ "=" ++ p.2 ++ ";"))

def renderReason : Option ReasonType → String
  | none => ""
  | some r => reasonTypeStr r

/-- The `featureId:featureVersion:variationId:reasonType` rendering of one
enriching evaluation (persister.go lines 384-394). -/
def formatEvaluation (ev : Evaluation) : String :=
  ev.featureId ++ ":" ++ toString ev.featureVersion ++ ":" ++ ev.variationId ++ ":" ++
    renderReason ev.reason

/-- `marshalEvaluationEvent`: always succeeds with repeatable = false. -/
def marshalEvaluationEvent (environmentNamespace : String) (e : EvaluationEvent) : String :=
  "environmentNamespace=" ++ environmentNamespace ++ ";tag=" ++ e.tag ++
    ";featureId=" ++ e.featureId ++ ";featureVersion=" ++ toString e.featureVersion ++
    ";userId=" ++ e.userId ++ ";variationId=" ++ e.variationId ++
    ";reason=" ++ renderReason e.reason ++ ";" ++ renderUserData environmentNamespace e.user

/-- `marshalGoalEvent`: fails exactly when `getEvaluations` fails, carrying
its retriable flag. -/
def marshalGoalEvent (E : SendEnv) (environmentNamespace : String) (e : GoalEvent) :
    Except (Bool × PersistError) String :=
  match getEvaluations E e environmentNamespace with
  | .err retriable => .error (retriable, .getEvaluationsError)
  | .ok ue =>
      .ok ("environmentNamespace=" ++ environmentNamespace ++ ";tag=" ++ e.tag ++
        ";goalId=" ++ e.goalId ++ ";userId=" ++ e.userId ++ ";" ++
        renderUserData environmentNamespace e.user ++ "evaluations=" ++
        String.join ((ue.map formatEvaluation).map (fun s => s ++ ",")))

/-- `marshalUserEvent`: always succeeds. -/
def marshalUserEvent (environmentNamespace : String) (e : UserEvent) : String :=
  "environmentNamespace=" ++ environmentNamespace ++ ";tag=" ++ e.tag ++
    ";userId=" ++ e.userId

/-- `marshalEvent` (persister.go lines 324-334): the type switch over the
decoded inner payload; any payload other than an evaluation, goal or user
event falls to the default branch returning `("", false,
ErrUnexpectedMessageType)`. -/
def marshalEvent (E : SendEnv) (environmentNamespace : String) :
    Event → Except (Bool × PersistError) String
  | .evaluation e => .ok (marshalEvaluationEvent environmentNamespace e)
  | .goal e => marshalGoalEvent E environmentNamespace e
  | .user e => .ok (marshalUserEvent environmentNamespace e)
  | .goalBatch => .error (false, .unexpectedMessageType)
  | .metrics => .error (false, .unexpectedMessageType)

/-! ### Messages, extraction, and the flush (`send`, persister.go lines 230-322)

A pub/sub message carries opaque bytes; decoding is two protobuf unmarshals
(outer `Event` envelope, then the inner `Any`).  The decode outcome of the
bytes is embedded as `MsgData`: the two failure points are kept apart for
fidelity, and a successful decode yields the envelope's
`environmentNamespace`, its event `Id`, and the inner payload. -/

inductive MsgData
  | badOuter
  | badInner (environmentNamespace id : String)
  | good (environmentNamespace id : String) (event : Event)
deriving DecidableEq

/-- A pulled message: `attrId` is `msg.Attributes["id"]` (the key under which
the batching worker stores it), `data` its payload bytes. -/
structure PMessage where
  attrId : String
  data : MsgData
deriving DecidableEq

def decodeMsg : MsgData → Option (String × String × Event)
  | .good env id ev => some (env, id, ev)
  | _ => none

def eventIdOf : MsgData → Option String
  | .good _ id _ => some id
  | _ => none

/-- Labels of the persister's prometheus counters (`receivedCounter` and the
`handledCounter` label values). -/
inductive CounterKind
  | ok
  | repeatableError
  | nonRepeatableError
  | badMessage
  | missingID
  | duplicateID
  | received
deriving DecidableEq

/-- Observable side effects of the pipeline, in program order: message
acks/nacks, counter increments, and the error log emitted when the auxiliary
postgres row write fails. -/
inductive Effect
  | ack (m : PMessage)
  | nack (m : PMessage)
  | counter (c : CounterKind)
  | rowStoreErrorLog (id : String)
deriving DecidableEq

/-- Insert-or-replace on an association list, mirroring Go map assignment
`m[k] = v`. -/
def upsert {α : Type} (l : List (String × α)) (k : String) (v : α) : List (String × α) :=
  if l.any (fun p => p.1 = k) then
    l.map (fun p => if p.1 = k then (k, v) else p)
  else l ++ [(k, v)]

/-- `envEvents[env][id] = ev`, mirroring the nested map build in
`extractEvents`. -/
def insertEnvEvent (acc : List (String × List (String × Event))) (env id : String)
    (ev : Event) : List (String × List (String × Event)) :=
  if acc.any (fun p => p.1 = env) then
    acc.map (fun p => if p.1 = env then (env, upsert p.2 id ev) else p)
  else acc ++ [(env, [(id, ev)])]

def extractEventsAux (acc : List (String × List (String × Event)) × List Effect) :
    List PMessage → List (String × List (String × Event)) × List Effect
  | [] => acc
  | m :: rest =>
    match m.data with
    | .good env id ev => extractEventsAux (insertEnvEvent acc.1 env id ev, acc.2) rest
    | .badOuter =>
        extractEventsAux (acc.1, acc.2 ++ [Effect.ack m, Effect.counter .badMessage]) rest
    | .badInner _ _ =>
        extractEventsAux (acc.1, acc.2 ++ [Effect.ack m, Effect.counter .badMessage]) rest

/-- `Persister.extractEvents` (persister.go lines 297-322): decode every
message of the batch; an undecodable one is acked, logged and counted as a
bad message, and contributes nothing to the per-environment event map.  The
events are keyed by the decoded envelope's event id (not by the message's
`id` attribute). -/
def extractEvents (messages : List PMessage) :
    List (String × List (String × Event)) × List Effect :=
  extractEventsAux ([], []) messages

/-- `Persister.createEvent` (persister.go lines 504-594): the auxiliary
postgres row write; a goal event first recomputes its enrichment, whose
failure fails the row write too.  Returns whether the write succeeded; the
caller only logs a failure. -/
def createEvent (E : Persister.SendEnv) (environmentNamespace id : String) : Event → Bool
  | .evaluation _ => E.rowWrite environmentNamespace id
  | .goal g =>
      match Persister.getEvaluations E g environmentNamespace with
      | .ok _ => E.rowWrite environmentNamespace id
      | .err _ => false
  | .user _ => E.rowWrite environmentNamespace id
  | .goalBatch => false
  | .metrics => false

def rowLogStep (E : Persister.SendEnv) (environmentNamespace : String)
    (q : String × Event) : Option Effect :=
  if createEvent E environmentNamespace q.1 q.2 then none
  else some (Effect.rowStoreErrorLog q.1)

/-- The error logs produced by the row-store branch of `send` (persister.go
lines 242-251); only present when a postgres client is configured. -/
def rowLogEffects (E : Persister.SendEnv)
    (envEvents : List (String × List (String × Event))) : List Effect :=
  if E.postgresConfigured then
    concatAll (envEvents.map (fun p => p.2.filterMap (rowLogStep E p.1)))
  else []

/-- The `fails[id] = repeatable` entries produced while marshalling one
environment's events (persister.go lines 252-264). -/
def marshalFailures (E : Persister.SendEnv) (environmentNamespace : String)
    (events : List (String × Event)) : List (String × Bool) :=
  events.filterMap (fun p =>
    match Persister.marshalEvent E environmentNamespace p.2 with
    | .error e => some (p.1, e.1)
    | .ok _ => none)

/-- The `evs[id] = eventJSON` records successfully marshalled for one
environment (persister.go line 265). -/
def marshalSuccesses (E : Persister.SendEnv) (environmentNamespace : String)
    (events : List (String × Event)) : List (String × String) :=
  events.filterMap (fun p =>
    match Persister.marshalEvent E environmentNamespace p.2 with
    | .ok s => some (p.1, s)
    | .error _ => none)

/-- Failure-map entries contributed by one environment: marshal failures in
event order, then — when at least one record was marshalled — the per-id
failures returned by the datastore write (persister.go lines 267-279). -/
def envFails (E : Persister.SendEnv) (environmentNamespace : String)
    (events : List (String × Event)) : List (String × Bool) :=
  marshalFailures E environmentNamespace events ++
    (if (marshalSuccesses E environmentNamespace events).isEmpty then []
     else E.dsWrite environmentNamespace (marshalSuccesses E environmentNamespace events))

/-- All failure-map entries of the flush, in the order the Go code writes
them into the `fails` map. -/
def sendFailsList (E : Persister.SendEnv)
    (envEvents : List (String × List (String × Event))) : List (String × Bool) :=
  concatAll (envEvents.map (fun p => envFails E p.1 p.2))

/-- Lookup in a chronological list of map writes: the last write wins,
mirroring Go map overwrite semantics. -/
def failLookup : List (String × Bool) → String → Option Bool
  | [], _ => none
  | p :: rest, k =>
    match failLookup rest k with
    | some b => some b
    | none => if p.1 = k then some p.2 else none

/-- The final content of the `fails` map of `send`, as a lookup function on
event ids. -/
def sendFails (E : Persister.SendEnv) (messages : List PMessage) : String → Option Bool :=
  failLookup (sendFailsList E (extractEvents messages).1)

/-- The ack policy of the final loop of `send` (persister.go lines 281-294),
applied to one message: the message map key (its `id` attribute) is looked up
in the failure map. -/
def finalEffects (fails : String → Option Bool) (m : PMessage) : List Effect :=
  match fails m.attrId with
  | some true => [Effect.nack m, Effect.counter .repeatableError]
  | some false => [Effect.ack m, Effect.counter .nonRepeatableError]
  | none => [Effect.ack m, Effect.counter .ok]

/-- `Persister.send` (persister.go lines 230-295), as the list of observable
effects of one flush: extraction effects; then, unless every message was bad
(the early return logging "all messages were bad"), the row-store logs and
the final ack loop over the original message map. -/
def sendEffects (E : Persister.SendEnv) (messages : List PMessage) : List Effect :=
  match (extractEvents messages).1 with
  | [] => (extractEvents messages).2
  | _ :: _ =>
    (extractEvents messages).2 ++ rowLogEffects E (extractEvents messages).1 ++
      concatAll (messages.map (finalEffects (sendFails E messages)))

/-- The handled-counter label selected by the ack policy for a failure-map
lookup result. -/
def policyCounter : Option Bool → CounterKind
  | none => .ok
  | some true => .repeatableError
  | some false => .nonRepeatableError

/-- How many messages of the batch have a given failure-map lookup result. -/
def countFails : List PMessage → (String → Option Bool) → Option Bool → Nat
  | [], _, _ => 0
  | m :: rest, fails, r => (if fails m.attrId = r then 1 else 0) + countFails rest fails r

/-- Every effect except the row-store error log: acks, nacks and counters. -/
def isDisposition : Effect → Bool
  | .rowStoreErrorLog _ => false
  | _ => true

/-- The ack/nack/counter effects of a flush, with the auxiliary row-store
logs filtered out. -/
def dispositionEffects (E : SendEnv) (messages : List PMessage) : List Effect :=
  (sendEffects E messages).filter isDisposition

/-- One iteration of the batching loop of `Persister.batch` (persister.go
lines 198-217) on an incoming message, before the flush-size check: returns
the updated batch and the effects of the insertion. -/
def batchInsert (batch : List PMessage) (msg : PMessage) : List PMessage × List Effect :=
  if msg.attrId = "" then
    (batch, [Effect.counter .received, Effect.ack msg, Effect.counter .missingID])
  else
    match batch.find? (fun m => m.attrId = msg.attrId) with
    | some previous =>
        (batch.map (fun m => if m.attrId = msg.attrId then msg else m),
         [Effect.counter .received, Effect.ack previous, Effect.counter .duplicateID])
    | none => (batch ++ [msg], [Effect.counter .received])

end Persister

/-! ### SDK gateway

The gateway service implementation (pkg/gateway/api) is not part of this
source tree; only its table tests are.  The definitions below are therefore
modelled from the specification, as their doc comments state, and are checked
for consistency with the expectations of the tests that are present. -/

namespace Gateway

inductive APIKeyRole
  | sdk
  | service
deriving DecidableEq

structure APIKey where
  id : String
  role : APIKeyRole
  disabled : Bool
deriving DecidableEq

structure EnvironmentAPIKey where
  environmentNamespace : String
  apiKey : APIKey
  environmentDisabled : Bool
deriving DecidableEq

/-- The gateway's error kinds (spec section 7). -/
inductive GatewayError
  | contextCanceled
  | missingAPIKey
  | invalidAPIKey
  | badRole
  | disabledAPIKey
  | tagRequired
  | userRequired
  | userIDRequired
  | featureIDRequired
  | featureNotFound
  | missingEvents
  | missingEventID
  | internalError
deriving DecidableEq

/-- Modelled from the spec: the admission check `checkEnvironmentAPIKey`
(spec section 4.3.1) of the gateway, whose implementation is missing from
this tree (only the table test `TestGrpcCheckEnvironmentAPIKey` is present).
A role mismatch is `ErrBadRole`; otherwise a disabled key or a disabled
environment is `ErrDisabledAPIKey`; otherwise the key is admitted. -/
def checkEnvironmentAPIKey (envAPIKey : EnvironmentAPIKey) (requiredRole : APIKeyRole) :
    Option GatewayError :=
  if envAPIKey.apiKey.role ≠ requiredRole then some .badRole
  else if envAPIKey.apiKey.disabled || envAPIKey.environmentDisabled then
    some .disabledAPIKey
  else none

/-- A feature, reduced to the fields the gateway claims depend on: its id and
version (the fingerprint inputs) and its tags (the filter inputs).  Rules,
variations and strategies belong to the evaluation engine, which is treated
as an oracle here. -/
structure Feature where
  id : String
  version : Nat
  tags : List String
deriving DecidableEq

/-- Lexicographic comparison of strings as code-point lists.  `String`'s
built-in order is byte-position based and does not reduce in the kernel;
this equivalent structural comparison does, keeping the fingerprint
computable by `decide`. -/
def charListLt : List Char → List Char → Bool
  | [], [] => false
  | [], _ :: _ => true
  | _ :: _, [] => false
  | a :: as, b :: bs =>
    if a.toNat = b.toNat then charListLt as bs
    else decide (a.toNat < b.toNat)

def insertSorted (s : String) : List String → List String
  | [] => [s]
  | x :: xs => if charListLt s.data x.data then s :: x :: xs else x :: insertSorted s xs

def sortStrings (l : List String) : List String :=
  l.foldr insertSorted []

/-- Modelled from the spec: the `UserEvaluationsID` fingerprint over the
user id, the sorted user data, and the sorted (featureId, version) pairs
(spec sections 3 and 4.2).  The hash function itself is abstracted as the
tagged concatenation of its sorted inputs; no claim depends on the choice of
hash, only on determinism and on the id being non-empty. -/
def UserEvaluationsID (userId : String) (data : List (String × String))
    (features : List Feature) : String :=
  "ueid/" ++ userId ++ "/" ++
    String.join (sortStrings (data.map (fun p => p.1 ++ "=" ++ p.2 ++ ";"))) ++ "/" ++
    String.join (sortStrings (features.map (fun f => f.id ++ ":" ++ toString f.version ++ ";")))

/-- A feature matches a tag when it carries that tag; a feature with no tags
matches every tag (spec section 4.2). -/
def tagMatch (tag : String) (f : Feature) : Bool :=
  f.tags.isEmpty || f.tags.contains tag

inductive EvaluationsState
  | queued
  | full
deriving DecidableEq

structure GetEvaluationsRequest where
  tag : String
  user : Option Persister.UserData
  userEvaluationsId : String
deriving DecidableEq

structure GetEvaluationsResponse where
  state : EvaluationsState
  evaluations : Option (List Persister.Evaluation)
  userEvaluationsId : String
deriving DecidableEq

/-- Modelled from the spec: the gateway `GetEvaluations` flow (spec section
4.3.2), whose implementation is missing from this tree.  Admission, the
feature cache and the best-effort user-event publish are elided; the
evaluation engine is the oracle `evalFn`, applied to the tag-filtered
features.  Where the spec's words and the repository tests disagree, the
tests win: `TestGrpcGetEvaluationsZeroFeature` pins the early return (empty
id) on the full feature list being empty, and
`TestGrpcGetEvaluationsUserEvaluationsID` pins the fingerprint as computed
over the full unfiltered feature list (its expected ueid is
`UserEvaluationsID(userID, userMetadata, features)` while the request tag
matches no feature), not over the tag-filtered set as the spec's step 2
says. -/
def getEvaluationsRPC (features : List Feature)
    (evalFn : Persister.UserData → List Feature → List Persister.Evaluation)
    (req : GetEvaluationsRequest) : Except GatewayError GetEvaluationsResponse :=
  if req.tag = "" then .error .tagRequired
  else
    match req.user with
    | none => .error .userRequired
    | some u =>
      if u.id = "" then .error .userIDRequired
      else
        match features with
        | [] => .ok ⟨.full, none, ""⟩
        | f :: fs =>
          if req.userEvaluationsId = UserEvaluationsID u.id u.data (f :: fs) then
            .ok ⟨.full, none, UserEvaluationsID u.id u.data (f :: fs)⟩
          else
            .ok ⟨.full, some (evalFn u ((f :: fs).filter (tagMatch req.tag))),
                 UserEvaluationsID u.id u.data (f :: fs)⟩

structure RegisterError where
  retriable : Bool
  message : String
deriving DecidableEq

/-- The decoded inner payload of an event submitted to `RegisterEvents`;
`unknown` stands for an inner `Any` whose type is not one of the known event
types (or does not unmarshal). -/
inductive InnerEvent
  | goal (e : Persister.GoalEvent)
  | goalBatch
  | evaluation (e : Persister.EvaluationEvent)
  | metrics
  | unknown
deriving DecidableEq

structure GatewayEvent where
  id : String
  inner : InnerEvent
deriving DecidableEq

/-- Modelled from the spec: the per-event outcome of `RegisterEvents` (spec
section 4.3.4).  An unknown inner type yields a non-retriable
"Invalid message type" entry; an evaluation event whose per-user storage
upsert fails (`upsertOk` is the storage oracle) yields a retriable
"Failed to upsert user evaluation" entry; every other event produces no
entry. -/
def perEventError (upsertOk : Persister.EvaluationEvent → Bool) (ev : GatewayEvent) :
    Option (String × RegisterError) :=
  match ev.inner with
  | .unknown => some (ev.id, ⟨false, "Invalid message type"⟩)
  | .evaluation e =>
      if upsertOk e then none
      else some (ev.id, ⟨true, "Failed to upsert user evaluation"⟩)
  | _ => none

/-- Modelled from the spec: the gateway `RegisterEvents` flow (spec section
4.3.4), whose implementation is missing from this tree.  Admission and the
per-type publishers are elided.  Zero events is `ErrMissingEvents`; an event
with an empty id is `ErrMissingEventID`; otherwise the call succeeds and
returns the per-event error map. -/
def registerEvents (upsertOk : Persister.EvaluationEvent → Bool)
    (events : List GatewayEvent) :
    Except GatewayError (List (String × RegisterError)) :=
  if events.isEmpty then .error .missingEvents
  else if events.any (fun ev => ev.id == "") then .error .missingEventID
  else .ok (events.filterMap (perEventError upsertOk))

end Gateway

/-! ### Concrete instances used by witnesses and counterexamples -/

namespace Persister

def uEvent0 : UserEvent := ⟨.android, "tag", 0, "user-1"⟩

def goalEvent0 : GoalEvent :=
  ⟨.goalBatch, "tag-0", 0, "goal-0", "user-1", some ⟨"user-1", []⟩, []⟩

def eval0 : Evaluation := ⟨"feature-0", 1, "variation-a", some .defaultReason⟩

def mBad : PMessage := ⟨"bad-id", .badOuter⟩

def mGood : PMessage := ⟨"good-id", .good "ns0" "good-id" (.user uEvent0)⟩

def mGB : PMessage := ⟨"gb-id", .good "ns0" "gb-id" Event.goalBatch⟩

def E0 : SendEnv :=
  ⟨false, fun _ _ => true, fun _ _ _ => .keyNotFound, fun _ _ _ => .rpcError,
   fun _ _ => []⟩

def E1 : SendEnv :=
  ⟨true, fun _ _ => false, fun _ _ _ => .keyNotFound,
   fun _ _ _ => .ok [⟨"feature-0", 1, "variation-a", some .defaultReason⟩],
   fun _ _ => []⟩

end Persister

namespace Gateway

def apiKey0 : APIKey := ⟨"id-0", .sdk, false⟩

def envAPIKey0 : EnvironmentAPIKey := ⟨"ns0", apiKey0, false⟩

def feature0 : Feature := ⟨"feature-0", 1, ["test"]⟩

def featureIOS : Feature := ⟨"feature-ios", 2, ["ios"]⟩

def user0 : Persister.UserData := ⟨"user-id-0", [("a", "value-a")]⟩

def eventsC6 : List GatewayEvent :=
  [⟨"id-unknown", .unknown⟩, ⟨"id-metrics", .metrics⟩]

def reqC5 : GetEvaluationsRequest :=
  ⟨"test", some user0, UserEvaluationsID "user-id-0" [("a", "value-a")] [feature0]⟩

def reqC10 : GetEvaluationsRequest := ⟨"test", some user0, ""⟩

end Gateway

/-! ## Helper lemmas -/

theorem concatAll_mem {α : Type} {a : α} {l : List α} {ls : List (List α)}
    (hl : l ∈ ls) (ha : a ∈ l) : a ∈ concatAll ls := by
  induction ls with
  | nil => cases hl
  | cons b bs ih =>
    rcases List.mem_cons.mp hl with h | h
    · subst h
      exact List.mem_append_left _ ha
    · exact List.mem_append_right _ (ih h)

theorem concatAll_map_mem {α β : Type} {b : β} {f : α → List β} {l : List α}
    (h : b ∈ concatAll (l.map f)) : ∃ a, a ∈ l ∧ b ∈ f a := by
  induction l with
  | nil => cases h
  | cons x xs ih =>
    simp only [List.map_cons, concatAll] at h
    rcases List.mem_append.mp h with h | h
    · exact ⟨x, List.mem_cons_self _ _, h⟩
    · rcases ih h with ⟨a, ha, hb⟩
      exact ⟨a, List.mem_cons_of_mem _ ha, hb⟩

theorem countE_append {α : Type} [DecidableEq α] (l1 l2 : List α) (a : α) :
    countE (l1 ++ l2) a = countE l1 a + countE l2 a := by
  induction l1 with
  | nil => simp [countE]
  | cons x xs ih => simp [countE, ih, Nat.add_assoc]

theorem one_le_countE_of_mem {α : Type} [DecidableEq α] {l : List α} {a : α}
    (h : a ∈ l) : 1 ≤ countE l a := by
  induction l with
  | nil => cases h
  | cons x xs ih =>
    rcases List.mem_cons.mp h with h | h
    · subst h
      simp [countE]
    · have := ih h
      simp only [countE]
      omega

theorem countE_eq_zero_of_forall_ne {α : Type} [DecidableEq α] {l : List α} {a : α}
    (h : ∀ x ∈ l, x ≠ a) : countE l a = 0 := by
  induction l with
  | nil => rfl
  | cons x xs ih =>
    have hx : x ≠ a := h x (List.mem_cons_self _ _)
    simp only [countE, if_neg hx, ih (fun y hy => h y (List.mem_cons_of_mem _ hy))]

theorem nodup_map_inj {α β : Type} {f : α → β} {l : List α}
    (h : (l.map f).Nodup) {a b : α} (ha : a ∈ l) (hb : b ∈ l) (hf : f a = f b) :
    a = b := by
  induction l with
  | nil => cases ha
  | cons x xs ih =>
    simp only [List.map_cons, List.nodup_cons] at h
    rcases List.mem_cons.mp ha with ha1 | ha1 <;> rcases List.mem_cons.mp hb with hb1 | hb1
    · exact ha1.trans hb1.symm
    · subst ha1
      exact absurd (hf ▸ List.mem_map_of_mem f hb1) h.1
    · subst hb1
      exact absurd (hf ▸ List.mem_map_of_mem f ha1) h.1
    · exact ih h.2 ha1 hb1

theorem nodup_append_singleton {α : Type} {l : List α} {a : α}
    (h : l.Nodup) (ha : a ∉ l) : (l ++ [a]).Nodup := by
  induction l with
  | nil => simp
  | cons x xs ih =>
    simp only [List.nodup_cons] at h
    have hax : a ∉ xs := fun hm => ha (List.mem_cons_of_mem _ hm)
    have hxa : x ≠ a := fun he => ha (he ▸ List.mem_cons_self _ _)
    simp only [List.cons_append, List.nodup_cons, List.mem_append, List.mem_singleton]
    exact ⟨fun hc => hc.elim h.1 hxa, ih h.2 hax⟩

/-! ## Persister theorems -/

namespace Persister

/-- C2: For every goal event processed by the persister, the evaluations used
for enrichment are selected as follows: if the source is `GOAL_BATCH`, the
stored evaluations are looked up by (userId, environmentNamespace, tag); on
`KeyNotFound` the persister falls back to the feature service
`EvaluateFeatures` RPC with the event's inlined user, and any other lookup
error is returned as retriable; otherwise, if the tag is empty the
client-supplied evaluations field is used; otherwise the stored evaluations
are used, with `KeyNotFound` yielding an empty list and any other error
returned as retriable. -/
theorem getEvaluations_selection (E : SendEnv) (e : GoalEvent) (env : String) :
    (e.sourceId = .goalBatch → ∀ ue, E.store e.userId env e.tag = .found ue →
        getEvaluations E e env = .ok ue) ∧
    (e.sourceId = .goalBatch → E.store e.userId env e.tag = .keyNotFound →
        ∀ evals, E.rpc e.user env e.tag = .ok evals →
        getEvaluations E e env = .ok evals) ∧
    (e.sourceId = .goalBatch → E.store e.userId env e.tag = .keyNotFound →
        E.rpc e.user env e.tag = .rpcError →
        getEvaluations E e env = .err false) ∧
    (e.sourceId = .goalBatch → E.store e.userId env e.tag = .otherError →
        getEvaluations E e env = .err true) ∧
    (e.sourceId ≠ .goalBatch → e.tag = "" →
        getEvaluations E e env = .ok e.evaluations) ∧
    (e.sourceId ≠ .goalBatch → e.tag ≠ "" →
        ∀ ue, E.store e.userId env e.tag = .found ue →
        getEvaluations E e env = .ok ue) ∧
    (e.sourceId ≠ .goalBatch → e.tag ≠ "" → E.store e.userId env e.tag = .keyNotFound →
        getEvaluations E e env = .ok []) ∧
    (e.sourceId ≠ .goalBatch → e.tag ≠ "" → E.store e.userId env e.tag = .otherError →
        getEvaluations E e env = .err true) := by
  refine ⟨?_, ?_, ?_, ?_, ?_, ?_, ?_, ?_⟩ <;>
    intros <;>
    simp_all [getEvaluations, getCurrentUserEvaluations]

/-- C2 witness: a `GOAL_BATCH` goal event whose stored lookup misses falls
back to the RPC result. -/
theorem getEvaluations_selection_witness :
    getEvaluations E1 goalEvent0 "ns0" = .ok [eval0] :=
  (getEvaluations_selection E1 goalEvent0 "ns0").2.1 rfl rfl [eval0] rfl

theorem map_attrId_replace (l : List PMessage) (msg : PMessage) :
    (l.map (fun m => if m.attrId = msg.attrId then msg else m)).map PMessage.attrId =
      l.map PMessage.attrId := by
  induction l with
  | nil => rfl
  | cons x xs ih =>
    by_cases hx : x.attrId = msg.attrId <;> simp [hx, ih]

theorem find?_replace (l : List PMessage) (msg : PMessage) :
    (∃ previous, l.find? (fun m => m.attrId = msg.attrId) = some previous) →
    (l.map (fun m => if m.attrId = msg.attrId then msg else m)).find?
        (fun m => m.attrId = msg.attrId) = some msg := by
  induction l with
  | nil => rintro ⟨previous, hp⟩; simp at hp
  | cons x xs ih =>
    rintro ⟨previous, hp⟩
    by_cases hx : x.attrId = msg.attrId
    · simp [hx]
    · simp only [List.map_cons, if_neg hx]
      rw [List.find?_cons_of_neg _ (by simp [hx])]
      rw [List.find?_cons_of_neg _ (by simp [hx])] at hp
      exact ih ⟨previous, hp⟩

/-- C3: In a persister worker's batching loop, a message with an empty id
attribute is acked and dropped (missing-id counter, batch unchanged); a
message whose id is already in the batch acks the previously stored message,
bumps the duplicate-id counter and replaces it, leaving the batch ids
unchanged; and an id-unique batch stays id-unique, so the batch holds at most
one message per id. -/
theorem batchInsert_policy (batch : List PMessage) (msg : PMessage) :
    (msg.attrId = "" →
        batchInsert batch msg =
          (batch, [Effect.counter .received, Effect.ack msg, Effect.counter .missingID])) ∧
    (msg.attrId ≠ "" → ∀ previous,
        batch.find? (fun m => m.attrId = msg.attrId) = some previous →
        (batchInsert batch msg).2 =
            [Effect.counter .received, Effect.ack previous, Effect.counter .duplicateID] ∧
        (batchInsert batch msg).1.find? (fun m => m.attrId = msg.attrId) = some msg ∧
        (batchInsert batch msg).1.map PMessage.attrId = batch.map PMessage.attrId) ∧
    ((batch.map PMessage.attrId).Nodup →
        ((batchInsert batch msg).1.map PMessage.attrId).Nodup) := by
  refine ⟨?_, ?_, ?_⟩
  · intro h
    simp [batchInsert, h]
  · intro h previous hfind
    refine ⟨?_, ?_, ?_⟩
    · simp [batchInsert, h, hfind]
    · simp only [batchInsert, if_neg h, hfind]
      exact find?_replace batch msg ⟨previous, hfind⟩
    · simp only [batchInsert, if_neg h, hfind]
      exact map_attrId_replace batch msg
  · intro hnodup
    by_cases h : msg.attrId = ""
    · simpa [batchInsert, h] using hnodup
    · rcases hfind : batch.find? (fun m => m.attrId = msg.attrId) with _ | previous
      · simp only [batchInsert, if_neg h, hfind, List.map_append, List.map_cons,
          List.map_nil]
        refine nodup_append_singleton hnodup ?_
        intro hmem
        rcases List.mem_map.mp hmem with ⟨m, hm, hid⟩
        have := List.find?_eq_none.mp hfind m hm
        simp [hid] at this
      · simp only [batchInsert, if_neg h, hfind]
        rw [map_attrId_replace batch msg]
        exact hnodup

/-- C3 witness: inserting a message whose id already occupies the batch acks
the previous message and replaces it. -/
theorem batchInsert_policy_witness :
    (batchInsert [mBad] (PMessage.mk "bad-id" (.good "ns0" "bad-id" Event.goalBatch))).2 =
      [Effect.counter .received, Effect.ack mBad, Effect.counter .duplicateID] :=
  ((batchInsert_policy [mBad] (PMessage.mk "bad-id" (.good "ns0" "bad-id" Event.goalBatch))).2.1
    (by decide) mBad (by decide)).1

/-! #### Structure of the flush effect list -/

theorem extractAux_effects_mono (msgs : List PMessage) :
    ∀ acc e, e ∈ acc.2 → e ∈ (extractEventsAux acc msgs).2 := by
  induction msgs with
  | nil => intro acc e he; exact he
  | cons m rest ih =>
    intro acc e he
    cases hd : m.data with
    | good env id ev =>
      simp only [extractEventsAux, hd]
      exact ih (insertEnvEvent acc.1 env id ev, acc.2) e he
    | badOuter =>
      simp only [extractEventsAux, hd]
      exact ih _ e (List.mem_append_left _ he)
    | badInner env id =>
      simp only [extractEventsAux, hd]
      exact ih _ e (List.mem_append_left _ he)

theorem extractAux_bad_mem (msgs : List PMessage) {m : PMessage}
    (hm : m ∈ msgs) (hbad : decodeMsg m.data = none) :
    ∀ acc, Effect.ack m ∈ (extractEventsAux acc msgs).2 ∧
      Effect.counter .badMessage ∈ (extractEventsAux acc msgs).2 := by
  induction msgs with
  | nil => cases hm
  | cons m0 rest ih =>
    intro acc
    rcases List.mem_cons.mp hm with rfl | hm2
    · cases hd : m.data with
      | good env id ev => rw [hd] at hbad; cases hbad
      | badOuter =>
        simp only [extractEventsAux, hd]
        constructor <;>
          exact extractAux_effects_mono rest _ _
            (List.mem_append_right _ (by simp))
      | badInner env id =>
        simp only [extractEventsAux, hd]
        constructor <;>
          exact extractAux_effects_mono rest _ _
            (List.mem_append_right _ (by simp))
    · cases hd : m0.data with
      | good env id ev =>
        simp only [extractEventsAux, hd]
        exact ih hm2 _
      | badOuter =>
        simp only [extractEventsAux, hd]
        exact ih hm2 _
      | badInner env id =>
        simp only [extractEventsAux, hd]
        exact ih hm2 _

theorem extractAux_effects_shape (msgs : List PMessage) :
    ∀ acc, ∀ e ∈ (extractEventsAux acc msgs).2,
      e ∈ acc.2 ∨
        (∃ m, m ∈ msgs ∧ decodeMsg m.data = none ∧ e = Effect.ack m) ∨
        e = Effect.counter .badMessage := by
  induction msgs with
  | nil => intro acc e he; exact Or.inl he
  | cons m rest ih =>
    intro acc e he
    cases hd : m.data with
    | good env id ev =>
      simp only [extractEventsAux, hd] at he
      rcases ih _ e he with h | h | h
      · exact Or.inl h
      · rcases h with ⟨m2, hm2, hb2, he2⟩
        exact Or.inr (Or.inl ⟨m2, List.mem_cons_of_mem _ hm2, hb2, he2⟩)
      · exact Or.inr (Or.inr h)
    | badOuter =>
      simp only [extractEventsAux, hd] at he
      rcases ih _ e he with h | h | h
      · rcases List.mem_append.mp h with h2 | h2
        · exact Or.inl h2
        · rcases List.mem_cons.mp h2 with rfl | h3
          · exact Or.inr (Or.inl ⟨m, List.mem_cons_self _ _, by rw [hd]; rfl, rfl⟩)
          · simp only [List.mem_singleton] at h3
            exact Or.inr (Or.inr h3)
      · rcases h with ⟨m2, hm2, hb2, he2⟩
        exact Or.inr (Or.inl ⟨m2, List.mem_cons_of_mem _ hm2, hb2, he2⟩)
      · exact Or.inr (Or.inr h)
    | badInner env id =>
      simp only [extractEventsAux, hd] at he
      rcases ih _ e he with h | h | h
      · rcases List.mem_append.mp h with h2 | h2
        · exact Or.inl h2
        · rcases List.mem_cons.mp h2 with rfl | h3
          · exact Or.inr (Or.inl ⟨m, List.mem_cons_self _ _, by rw [hd]; rfl, rfl⟩)
          · simp only [List.mem_singleton] at h3
            exact Or.inr (Or.inr h3)
      · rcases h with ⟨m2, hm2, hb2, he2⟩
        exact Or.inr (Or.inl ⟨m2, List.mem_cons_of_mem _ hm2, hb2, he2⟩)
      · exact Or.inr (Or.inr h)

theorem extract_effects_shape (msgs : List PMessage) :
    ∀ e ∈ (extractEvents msgs).2,
      (∃ m, m ∈ msgs ∧ decodeMsg m.data = none ∧ e = Effect.ack m) ∨
        e = Effect.counter .badMessage := by
  intro e he
  rcases extractAux_effects_shape msgs ([], []) e he with h | h | h
  · cases h
  · exact Or.inl h
  · exact Or.inr h

theorem rowLog_shape (E : SendEnv) (envEvents : List (String × List (String × Event))) :
    ∀ e ∈ rowLogEffects E envEvents, ∃ i, e = Effect.rowStoreErrorLog i := by
  intro e he
  unfold rowLogEffects at he
  split at he
  · rcases concatAll_map_mem he with ⟨p, hp, hmem⟩
    rcases List.mem_filterMap.mp hmem with ⟨q, hq, hstep⟩
    unfold rowLogStep at hstep
    split at hstep
    · cases hstep
    · exact ⟨q.1, (Option.some.inj hstep).symm⟩
  · cases he

theorem sendEffects_split (E : SendEnv) (messages : List PMessage)
    (hne : (extractEvents messages).1 ≠ []) :
    sendEffects E messages =
      (extractEvents messages).2 ++ rowLogEffects E (extractEvents messages).1 ++
        concatAll (messages.map (finalEffects (sendFails E messages))) := by
  unfold sendEffects
  cases hx : (extractEvents messages).1 with
  | nil => exact absurd hx hne
  | cons p rest => rfl

theorem countE_final_phase (msgs : List PMessage) (fails : String → Option Bool)
    (r : Option Bool) :
    countE (concatAll (msgs.map (finalEffects fails))) (Effect.counter (policyCounter r)) =
      countFails msgs fails r := by
  induction msgs with
  | nil => rfl
  | cons m rest ih =>
    simp only [List.map_cons, concatAll, countE_append, ih, countFails]
    have hhead : countE (finalEffects fails m) (Effect.counter (policyCounter r)) =
        if fails m.attrId = r then 1 else 0 := by
      rcases hf : fails m.attrId with _ | b
      · rcases r with _ | rb
        · simp [finalEffects, hf, countE, policyCounter]
        · rcases rb <;> simp [finalEffects, hf, countE, policyCounter]
      · rcases b <;> rcases r with _ | rb
        · simp [finalEffects, hf, countE, policyCounter]
        · rcases rb <;> simp [finalEffects, hf, countE, policyCounter]
        · simp [finalEffects, hf, countE, policyCounter]
        · rcases rb <;> simp [finalEffects, hf, countE, policyCounter]
    omega

theorem final_phase_mem {msgs : List PMessage} {fails : String → Option Bool}
    {m : PMessage} (hm : m ∈ msgs) {e : Effect} (he : e ∈ finalEffects fails m) :
    e ∈ concatAll (msgs.map (finalEffects fails)) :=
  concatAll_mem (List.mem_map_of_mem _ hm) he

/-- C1: In the persister's flush, once at least one message of the batch has
decoded (so the early "all messages were bad" return is not taken), the final
disposition of every message in the flushed batch follows the ack policy: a
message whose id is absent from the failure map is acked and the OK counter
increments once per such message; an entry with repeatable = true nacks the
message and bumps the RepeatableError counter; an entry with
repeatable = false acks the message and bumps the NonRepeatableError
counter. -/
theorem send_ack_policy (E : SendEnv) (messages : List PMessage)
    (hne : (extractEvents messages).1 ≠ []) :
    (∀ m ∈ messages, sendFails E messages m.attrId = none →
        Effect.ack m ∈ sendEffects E messages) ∧
    (∀ m ∈ messages, sendFails E messages m.attrId = some true →
        Effect.nack m ∈ sendEffects E messages) ∧
    (∀ m ∈ messages, sendFails E messages m.attrId = some false →
        Effect.ack m ∈ sendEffects E messages) ∧
    (∀ r : Option Bool,
        countE (sendEffects E messages) (Effect.counter (policyCounter r)) =
          countFails messages (sendFails E messages) r) := by
  rw [sendEffects_split E messages hne]
  refine ⟨?_, ?_, ?_, ?_⟩
  · intro m hm hf
    refine List.mem_append_right _ (final_phase_mem hm ?_)
    simp [finalEffects, hf]
  · intro m hm hf
    refine List.mem_append_right _ (final_phase_mem hm ?_)
    simp [finalEffects, hf]
  · intro m hm hf
    refine List.mem_append_right _ (final_phase_mem hm ?_)
    simp [finalEffects, hf]
  · intro r
    rw [countE_append, countE_append, countE_final_phase]
    have h1 : countE (extractEvents messages).2 (Effect.counter (policyCounter r)) = 0 := by
      refine countE_eq_zero_of_forall_ne ?_
      intro x hx
      rcases extract_effects_shape messages x hx with ⟨m2, _, _, rfl⟩ | rfl
      · simp
      · rcases r with _ | b
        · simp [policyCounter]
        · rcases b <;> simp [policyCounter]
    have h2 : countE (rowLogEffects E (extractEvents messages).1)
        (Effect.counter (policyCounter r)) = 0 := by
      refine countE_eq_zero_of_forall_ne ?_
      intro x hx
      rcases rowLog_shape E _ x hx with ⟨i, rfl⟩
      simp
    omega

/-- C1 witness: a decodable message absent from the failure map is acked by
the final loop of a concrete flush. -/
theorem send_ack_policy_witness :
    Effect.ack mGood ∈ sendEffects E0 [mBad, mGood] :=
  (send_ack_policy E0 [mBad, mGood] (by decide)).1 mGood (by decide) (by decide)

theorem filter_rowLogStep_nil (E : SendEnv) (env : String) (l : List (String × Event)) :
    (l.filterMap (rowLogStep E env)).filter isDisposition = [] := by
  induction l with
  | nil => rfl
  | cons q rest ih =>
    simp only [List.filterMap_cons]
    cases hq : rowLogStep E env q with
    | none => exact ih
    | some e =>
      have he : e = Effect.rowStoreErrorLog q.1 := by
        unfold rowLogStep at hq
        split at hq
        · cases hq
        · exact (Option.some.inj hq).symm
      rw [he, List.filter_cons_of_neg (by simp [isDisposition])]
      exact ih

theorem filter_rowLogEffects_nil (E : SendEnv)
    (envEvents : List (String × List (String × Event))) :
    (rowLogEffects E envEvents).filter isDisposition = [] := by
  unfold rowLogEffects
  split
  · induction envEvents with
    | nil => rfl
    | cons p rest ih =>
      simp only [List.map_cons, concatAll, List.filter_append, ih,
        filter_rowLogStep_nil, List.nil_append]
  · rfl

/-- C8: When a row-store (postgres) client is configured, the per-event row
write during the flush influences neither the failure map nor the ack/nack
dispositions and counters: the flush of any batch under any row-store
configuration and any row-write outcome yields the same failure map and the
same disposition effects as under the original environment, which differs
only in those two fields. -/
theorem send_rowstore_frame (E : SendEnv) (b : Bool) (w : String → String → Bool)
    (messages : List PMessage) :
    sendFails (SendEnv.mk b w E.store E.rpc E.dsWrite) messages = sendFails E messages ∧
    dispositionEffects (SendEnv.mk b w E.store E.rpc E.dsWrite) messages =
      dispositionEffects E messages := by
  have hfails : sendFails (SendEnv.mk b w E.store E.rpc E.dsWrite) messages =
      sendFails E messages := rfl
  refine ⟨hfails, ?_⟩
  unfold dispositionEffects
  cases hx : (extractEvents messages).1 with
  | nil =>
    have h1 : sendEffects (SendEnv.mk b w E.store E.rpc E.dsWrite) messages =
        (extractEvents messages).2 := by
      unfold sendEffects
      rw [hx]
    have h2 : sendEffects E messages = (extractEvents messages).2 := by
      unfold sendEffects
      rw [hx]
    rw [h1, h2]
  | cons p rest =>
    have hne : (extractEvents messages).1 ≠ [] := by rw [hx]; simp
    rw [sendEffects_split _ messages hne, sendEffects_split E messages hne]
    simp only [List.filter_append, filter_rowLogEffects_nil, hfails]

/-! #### Tracing extracted events back to messages -/

theorem upsert_mem {α : Type} {l : List (String × α)} {k : String} {v : α}
    {p : String × α} (hp : p ∈ upsert l k v) : p ∈ l ∨ p = (k, v) := by
  unfold upsert at hp
  split at hp
  · rcases List.mem_map.mp hp with ⟨q, hq, he⟩
    by_cases h : q.1 = k
    · rw [if_pos h] at he
      exact Or.inr he.symm
    · rw [if_neg h] at he
      exact Or.inl (he ▸ hq)
  · rcases List.mem_append.mp hp with h | h
    · exact Or.inl h
    · simp only [List.mem_singleton] at h
      exact Or.inr h

theorem insertEnvEvent_mem {acc : List (String × List (String × Event))}
    {env id : String} {ev : Event} {q : String × List (String × Event)}
    (hq : q ∈ insertEnvEvent acc env id ev) {p : String × Event} (hp : p ∈ q.2) :
    (∃ events0, (q.1, events0) ∈ acc ∧ p ∈ events0) ∨ (q.1 = env ∧ p = (id, ev)) := by
  unfold insertEnvEvent at hq
  split at hq
  · rcases List.mem_map.mp hq with ⟨r, hr, he⟩
    by_cases h : r.1 = env
    · rw [if_pos h] at he
      subst he
      rcases upsert_mem hp with h2 | h2
      · exact Or.inl ⟨r.2, by rw [← h]; exact hr, h2⟩
      · exact Or.inr ⟨rfl, h2⟩
    · rw [if_neg h] at he
      subst he
      exact Or.inl ⟨r.2, hr, hp⟩
  · rcases List.mem_append.mp hq with h | h
    · exact Or.inl ⟨q.2, h, hp⟩
    · simp only [List.mem_singleton] at h
      subst h
      simp only [List.mem_singleton] at hp
      exact Or.inr ⟨rfl, hp⟩

theorem extractAux_trace (msgs : List PMessage) :
    ∀ acc, ∀ q ∈ (extractEventsAux acc msgs).1, ∀ p ∈ q.2,
      (∃ events0, (q.1, events0) ∈ acc.1 ∧ p ∈ events0) ∨
      (∃ m, m ∈ msgs ∧ m.data = MsgData.good q.1 p.1 p.2) := by
  induction msgs with
  | nil => intro acc q hq p hp; exact Or.inl ⟨q.2, hq, hp⟩
  | cons m rest ih =>
    intro acc q hq p hp
    cases hd : m.data with
    | good env id ev =>
      simp only [extractEventsAux, hd] at hq
      rcases ih _ q hq p hp with ⟨events0, h0, hp0⟩ | ⟨m2, hm2, he2⟩
      · rcases insertEnvEvent_mem h0 hp0 with h | ⟨h1, h2⟩
        · exact Or.inl h
        · refine Or.inr ⟨m, List.mem_cons_self _ _, ?_⟩
          rw [hd, h1, h2]
      · exact Or.inr ⟨m2, List.mem_cons_of_mem _ hm2, he2⟩
    | badOuter =>
      simp only [extractEventsAux, hd] at hq
      rcases ih _ q hq p hp with h | ⟨m2, hm2, he2⟩
      · exact Or.inl h
      · exact Or.inr ⟨m2, List.mem_cons_of_mem _ hm2, he2⟩
    | badInner env id =>
      simp only [extractEventsAux, hd] at hq
      rcases ih _ q hq p hp with h | ⟨m2, hm2, he2⟩
      · exact Or.inl h
      · exact Or.inr ⟨m2, List.mem_cons_of_mem _ hm2, he2⟩

/-- C7 counterexample: in a concrete flush with one undecodable and one good
message, the undecodable message is acked twice (once during extraction, once
by the final loop) and the OK counter counts it, refuting that an undecodable
message is acked exactly once and takes no further part in the flush's ack
accounting. -/
theorem send_bad_message_cex :
    countE (sendEffects E0 [mBad, mGood]) (Effect.ack mBad) = 2 ∧
    countE (sendEffects E0 [mBad, mGood]) (Effect.counter .ok) = 2 := by
  decide

/-- C7 (amended): during a persister flush, every message whose data cannot
be decoded is acked during extraction, increments the bad-message counter,
and contributes nothing to the extracted event map (every extracted event
comes from a decodable message) — but the message is not removed from the
batch map: whenever at least one message decodes, the final ack loop
processes it again, so it is acked at least twice, and when its id is absent
from the failure map the OK counter counts it as well. -/
theorem send_bad_message_amended (E : SendEnv) (messages : List PMessage)
    (m : PMessage) (hm : m ∈ messages) (hbad : decodeMsg m.data = none)
    (hne : (extractEvents messages).1 ≠ [])
    (hnone : sendFails E messages m.attrId = none) :
    Effect.ack m ∈ (extractEvents messages).2 ∧
    Effect.counter .badMessage ∈ (extractEvents messages).2 ∧
    (∀ q ∈ (extractEvents messages).1, ∀ p ∈ q.2,
        ∃ m2, m2 ∈ messages ∧ m2.data = MsgData.good q.1 p.1 p.2) ∧
    2 ≤ countE (sendEffects E messages) (Effect.ack m) ∧
    Effect.counter .ok ∈ sendEffects E messages := by
  obtain ⟨hack, hcnt⟩ := extractAux_bad_mem messages hm hbad ([], [])
  have hfinal : finalEffects (sendFails E messages) m =
      [Effect.ack m, Effect.counter .ok] := by
    simp [finalEffects, hnone]
  refine ⟨hack, hcnt, ?_, ?_, ?_⟩
  · intro q hq p hp
    rcases extractAux_trace messages ([], []) q hq p hp with ⟨events0, h0, _⟩ | h
    · cases h0
    · exact h
  · rw [sendEffects_split E messages hne, countE_append, countE_append]
    have h1 : 1 ≤ countE (extractEvents messages).2 (Effect.ack m) :=
      one_le_countE_of_mem hack
    have h2 : 1 ≤ countE
        (concatAll (messages.map (finalEffects (sendFails E messages))))
        (Effect.ack m) := by
      refine one_le_countE_of_mem (final_phase_mem hm ?_)
      rw [hfinal]
      simp
    omega
  · rw [sendEffects_split E messages hne]
    refine List.mem_append_right _ (final_phase_mem hm ?_)
    rw [hfinal]
    simp

/-- C7 witness for the amended claim: the concrete double ack. -/
theorem send_bad_message_amended_witness :
    2 ≤ countE (sendEffects E0 [mBad, mGood]) (Effect.ack mBad) :=
  (send_bad_message_amended E0 [mBad, mGood] mBad (by decide) rfl (by decide)
    (by decide)).2.2.2.1

/-! #### Locating one event id in the failure map -/

theorem failLookup_eq_none {l : List (String × Bool)} {k : String}
    (h : ∀ p ∈ l, p.1 ≠ k) : failLookup l k = none := by
  induction l with
  | nil => rfl
  | cons q rest ih =>
    have hq : q.1 ≠ k := h q (List.mem_cons_self _ _)
    simp only [failLookup, ih (fun p hp => h p (List.mem_cons_of_mem _ hp)), if_neg hq]

theorem failLookup_const {l : List (String × Bool)} {k : String} {b : Bool}
    (hex : ∃ p ∈ l, p.1 = k) (hval : ∀ p ∈ l, p.1 = k → p.2 = b) :
    failLookup l k = some b := by
  induction l with
  | nil =>
    rcases hex with ⟨p, hp, _⟩
    cases hp
  | cons q rest ih =>
    by_cases hr : ∃ p ∈ rest, p.1 = k
    · have htail := ih hr (fun p hp h => hval p (List.mem_cons_of_mem _ hp) h)
      simp only [failLookup, htail]
    · push_neg at hr
      have hnone : failLookup rest k = none := failLookup_eq_none hr
      rcases hex with ⟨p, hp, hpk⟩
      rcases List.mem_cons.mp hp with rfl | hp2
      · simp only [failLookup, hnone, if_pos hpk]
        rw [hval p (List.mem_cons_self _ _) hpk]
      · exact absurd hpk (hr p hp2)

theorem upsert_self {α : Type} (l : List (String × α)) (k : String) (v : α) :
    (k, v) ∈ upsert l k v := by
  unfold upsert
  split
  · next hany =>
    rcases List.any_eq_true.mp hany with ⟨q, hq, hqk⟩
    simp only [decide_eq_true_eq] at hqk
    exact List.mem_map.mpr ⟨q, hq, by simp [hqk]⟩
  · exact List.mem_append_right _ (by simp)

theorem upsert_keep {α : Type} {l : List (String × α)} {k : String} {v : α}
    {p : String × α} (hp : p ∈ l) (hne : p.1 ≠ k) : p ∈ upsert l k v := by
  unfold upsert
  split
  · exact List.mem_map.mpr ⟨p, hp, by simp [hne]⟩
  · exact List.mem_append_left _ hp

theorem insertEnvEvent_self (acc : List (String × List (String × Event)))
    (env id : String) (ev : Event) :
    ∃ events, (env, events) ∈ insertEnvEvent acc env id ev ∧ (id, ev) ∈ events := by
  unfold insertEnvEvent
  split
  · next hany =>
    rcases List.any_eq_true.mp hany with ⟨q, hq, hqe⟩
    simp only [decide_eq_true_eq] at hqe
    exact ⟨upsert q.2 id ev, List.mem_map.mpr ⟨q, hq, by simp [hqe]⟩,
      upsert_self q.2 id ev⟩
  · exact ⟨[(id, ev)], List.mem_append_right _ (by simp), by simp⟩

theorem insertEnvEvent_preserve {acc : List (String × List (String × Event))}
    {env k : String} {ev : Event} (env2 id2 : String) (ev2 : Event) (hne : id2 ≠ k)
    (hQ : ∃ events, (env, events) ∈ acc ∧ (k, ev) ∈ events) :
    ∃ events, (env, events) ∈ insertEnvEvent acc env2 id2 ev2 ∧ (k, ev) ∈ events := by
  rcases hQ with ⟨events, hmem, hkv⟩
  unfold insertEnvEvent
  split
  · by_cases h : env = env2
    · subst h
      exact ⟨upsert events id2 ev2,
        List.mem_map.mpr ⟨(env, events), hmem, by simp⟩,
        upsert_keep hkv (fun hc => hne hc.symm)⟩
    · exact ⟨events, List.mem_map.mpr ⟨(env, events), hmem, by simp [h]⟩, hkv⟩
  · exact ⟨events, List.mem_append_left _ hmem, hkv⟩

theorem extractAux_key {env k : String} {ev : Event} (msgs : List PMessage)
    (hALL : ∀ m2 ∈ msgs, ∀ env2 ev2, m2.data = MsgData.good env2 k ev2 →
        env2 = env ∧ ev2 = ev) :
    ∀ acc, ((∃ events, (env, events) ∈ acc.1 ∧ (k, ev) ∈ events) ∨
        (∃ m, m ∈ msgs ∧ m.data = MsgData.good env k ev)) →
    ∃ events, (env, events) ∈ (extractEventsAux acc msgs).1 ∧ (k, ev) ∈ events := by
  induction msgs with
  | nil =>
    intro acc h
    rcases h with h | ⟨m, hm, _⟩
    · exact h
    · cases hm
  | cons m rest ih =>
    have hALLrest : ∀ m2 ∈ rest, ∀ env2 ev2, m2.data = MsgData.good env2 k ev2 →
        env2 = env ∧ ev2 = ev :=
      fun m2 hm2 => hALL m2 (List.mem_cons_of_mem _ hm2)
    intro acc h
    cases hd : m.data with
    | good env2 id2 ev2 =>
      simp only [extractEventsAux, hd]
      refine ih hALLrest _ ?_
      by_cases hid : id2 = k
      · obtain ⟨henv, hev⟩ := hALL m (List.mem_cons_self _ _) env2 ev2 (by rw [hd, hid])
        refine Or.inl ?_
        rw [henv, hev, hid]
        exact insertEnvEvent_self acc.1 env k ev
      · rcases h with hQ | ⟨m2, hm2, hd2⟩
        · exact Or.inl (insertEnvEvent_preserve env2 id2 ev2 hid hQ)
        · rcases List.mem_cons.mp hm2 with rfl | hm3
          · rw [hd] at hd2
            cases hd2
            exact absurd rfl hid
          · exact Or.inr ⟨m2, hm3, hd2⟩
    | badOuter =>
      simp only [extractEventsAux, hd]
      refine ih hALLrest _ ?_
      rcases h with hQ | ⟨m2, hm2, hd2⟩
      · exact Or.inl hQ
      · rcases List.mem_cons.mp hm2 with rfl | hm3
        · rw [hd] at hd2
          cases hd2
        · exact Or.inr ⟨m2, hm3, hd2⟩
    | badInner e2 i2 =>
      simp only [extractEventsAux, hd]
      refine ih hALLrest _ ?_
      rcases h with hQ | ⟨m2, hm2, hd2⟩
      · exact Or.inl hQ
      · rcases List.mem_cons.mp hm2 with rfl | hm3
        · rw [hd] at hd2
          cases hd2
        · exact Or.inr ⟨m2, hm3, hd2⟩

theorem sendFailsList_mem {E : SendEnv}
    {envEvents : List (String × List (String × Event))} {env : String}
    {events : List (String × Event)} (hmem : (env, events) ∈ envEvents)
    {p : String × Bool} (hp : p ∈ envFails E env events) :
    p ∈ sendFailsList E envEvents := by
  unfold sendFailsList
  exact concatAll_mem (List.mem_map.mpr ⟨(env, events), hmem, rfl⟩) hp

theorem sendFailsList_mem_elim {E : SendEnv}
    {envEvents : List (String × List (String × Event))} {p : String × Bool}
    (hp : p ∈ sendFailsList E envEvents) :
    ∃ q, q ∈ envEvents ∧ p ∈ envFails E q.1 q.2 := by
  unfold sendFailsList at hp
  exact concatAll_map_mem hp

/-- C9: A persister message whose inner payload decodes to a type other than
an evaluation, goal, or user event (a goal-batch or metrics payload) makes
`marshalEvent` return the unexpected-message-type error with
repeatable = false, so — provided its id attribute matches its event id, no
other message of the batch carries that event id, and the datastore reports
failures only for records it was given — the flush records the id as a
non-repeatable failure, acks the message, counts it as NonRepeatableError,
and never nacks it, i.e. it is permanently dropped rather than redelivered. -/
theorem send_unexpected_type (E : SendEnv) (messages : List PMessage)
    (m : PMessage) (env : String) (ev : Event)
    (hm : m ∈ messages)
    (hdata : m.data = MsgData.good env m.attrId ev)
    (hunex : ev = Event.goalBatch ∨ ev = Event.metrics)
    (hunique : ∀ m2 ∈ messages, m2 ≠ m → eventIdOf m2.data ≠ some m.attrId)
    (hds : ∀ en evs p, p ∈ E.dsWrite en evs → ∃ q ∈ evs, q.1 = p.1) :
    marshalEvent E env ev = Except.error (false, PersistError.unexpectedMessageType) ∧
    sendFails E messages m.attrId = some false ∧
    Effect.ack m ∈ sendEffects E messages ∧
    Effect.counter .nonRepeatableError ∈ sendEffects E messages ∧
    Effect.nack m ∉ sendEffects E messages := by
  have hmarshal : marshalEvent E env ev =
      Except.error (false, PersistError.unexpectedMessageType) := by
    rcases hunex with rfl | rfl <;> rfl
  have hALL : ∀ m2 ∈ messages, ∀ env2 ev2,
      m2.data = MsgData.good env2 m.attrId ev2 → env2 = env ∧ ev2 = ev := by
    intro m2 hm2 env2 ev2 hd2
    by_cases hm2m : m2 = m
    · subst hm2m
      rw [hdata] at hd2
      cases hd2
      exact ⟨rfl, rfl⟩
    · have : eventIdOf m2.data = some m.attrId := by rw [hd2]; rfl
      exact absurd this (hunique m2 hm2 hm2m)
  obtain ⟨events, hmemE0, hkv⟩ :=
    extractAux_key messages hALL ([], []) (Or.inr ⟨m, hm, hdata⟩)
  have hmemE : (env, events) ∈ (extractEvents messages).1 := hmemE0
  have hne : (extractEvents messages).1 ≠ [] := by
    intro hnil
    rw [hnil] at hmemE
    cases hmemE
  -- any entry of one environment's event map with this key is exactly our event
  have hentry : ∀ q ∈ (extractEvents messages).1, ∀ p ∈ q.2, p.1 = m.attrId →
      q.1 = env ∧ p.2 = ev := by
    intro q hq p hp hpk
    rcases extractAux_trace messages ([], []) q hq p hp with ⟨ev0, h0, _⟩ | ⟨m2, hm2, hd2⟩
    · cases h0
    · rw [hpk] at hd2
      obtain ⟨henv, hev⟩ := hALL m2 hm2 q.1 p.2 hd2
      exact ⟨henv, hev⟩
  have hfails : sendFails E messages m.attrId = some false := by
    unfold sendFails
    refine failLookup_const ?_ ?_
    · refine ⟨(m.attrId, false), ?_, rfl⟩
      have hmf : (m.attrId, false) ∈ marshalFailures E env events := by
        refine List.mem_filterMap.mpr ⟨(m.attrId, ev), hkv, ?_⟩
        rw [hmarshal]
      have henf : (m.attrId, false) ∈ envFails E env events :=
        List.mem_append_left _ hmf
      exact sendFailsList_mem hmemE henf
    · intro p hp hpk
      rcases sendFailsList_mem_elim hp with ⟨q, hq, hpq⟩
      rcases List.mem_append.mp hpq with hmf | hdsw
      · rcases List.mem_filterMap.mp hmf with ⟨r, hr, hmr⟩
        cases hms : marshalEvent E q.1 r.2 with
        | error e2 =>
          rw [hms] at hmr
          cases hmr
          obtain ⟨henv, hev⟩ := hentry q hq r hr hpk
          rw [henv, hev, hmarshal] at hms
          cases hms
          rfl
        | ok s2 =>
          rw [hms] at hmr
          cases hmr
      · split at hdsw
        · cases hdsw
        · rcases hds q.1 _ p hdsw with ⟨s, hs, hsk⟩
          rcases List.mem_filterMap.mp hs with ⟨r, hr, hmr⟩
          cases hms : marshalEvent E q.1 r.2 with
          | error e2 =>
            rw [hms] at hmr
            cases hmr
          | ok s2 =>
            rw [hms] at hmr
            cases hmr
            obtain ⟨henv, hev⟩ := hentry q hq r hr (hsk.trans hpk)
            rw [henv, hev, hmarshal] at hms
            cases hms
  have hfinal : finalEffects (sendFails E messages) m =
      [Effect.ack m, Effect.counter .nonRepeatableError] := by
    simp [finalEffects, hfails]
  refine ⟨hmarshal, hfails, ?_, ?_, ?_⟩
  · rw [sendEffects_split E messages hne]
    refine List.mem_append_right _ (final_phase_mem hm ?_)
    rw [hfinal]
    simp
  · rw [sendEffects_split E messages hne]
    refine List.mem_append_right _ (final_phase_mem hm ?_)
    rw [hfinal]
    simp
  · rw [sendEffects_split E messages hne]
    intro hmem
    rcases List.mem_append.mp hmem with h12 | h3
    · rcases List.mem_append.mp h12 with h1 | h2
      · rcases extract_effects_shape messages _ h1 with ⟨m2, _, _, he⟩ | he <;> cases he
      · rcases rowLog_shape E _ _ h2 with ⟨i, he⟩
        cases he
    · rcases concatAll_map_mem h3 with ⟨m2, hm2, hin⟩
      rcases hf2 : sendFails E messages m2.attrId with _ | b
      · rw [show finalEffects (sendFails E messages) m2 =
            [Effect.ack m2, Effect.counter .ok] by simp [finalEffects, hf2]] at hin
        rcases List.mem_cons.mp hin with he | he
        · cases he
        · simp only [List.mem_singleton] at he
          cases he
      · rcases b with _ | _
        · rw [show finalEffects (sendFails E messages) m2 =
              [Effect.ack m2, Effect.counter .nonRepeatableError] by
                simp [finalEffects, hf2]] at hin
          rcases List.mem_cons.mp hin with he | he
          · cases he
          · simp only [List.mem_singleton] at he
            cases he
        · rw [show finalEffects (sendFails E messages) m2 =
              [Effect.nack m2, Effect.counter .repeatableError] by
                simp [finalEffects, hf2]] at hin
          rcases List.mem_cons.mp hin with he | he
          · have hm2m : m2 = m := (Effect.nack.inj he).symm
            rw [hm2m] at hf2
            rw [hfails] at hf2
            cases hf2
          · simp only [List.mem_singleton] at he
            cases he

/-- C9 witness: a concrete goal-batch payload is recorded as a non-repeatable
failure. -/
theorem send_unexpected_type_witness :
    sendFails E0 [mGB, mGood] "gb-id" = some false :=
  (send_unexpected_type E0 [mGB, mGood] mGB "ns0" Event.goalBatch (by decide) rfl
    (Or.inl rfl) (by decide)
    (fun en evs p hp => absurd hp (List.not_mem_nil p))).2.1

end Persister

/-! ## Gateway theorems -/

namespace Gateway

/-- C4: For every environment API key and required role, the admission check
returns `ErrBadRole` when the key's role differs from the required role,
`ErrDisabledAPIKey` when the key or its environment is disabled (and the role
matches), and no error when the role matches and neither disabled flag is
set. -/
theorem checkEnvironmentAPIKey_matrix (e : EnvironmentAPIKey) (r : APIKeyRole) :
    (e.apiKey.role ≠ r → checkEnvironmentAPIKey e r = some .badRole) ∧
    (e.apiKey.role = r → (e.apiKey.disabled = true ∨ e.environmentDisabled = true) →
        checkEnvironmentAPIKey e r = some .disabledAPIKey) ∧
    (e.apiKey.role = r → e.apiKey.disabled = false → e.environmentDisabled = false →
        checkEnvironmentAPIKey e r = none) := by
  refine ⟨?_, ?_, ?_⟩
  · intro h
    simp [checkEnvironmentAPIKey, h]
  · intro h hd
    rcases hd with hd | hd <;> simp [checkEnvironmentAPIKey, h, hd]
  · intro h h1 h2
    simp [checkEnvironmentAPIKey, h, h1, h2]

/-- C4 witness: an enabled SDK key in an enabled environment is admitted for
the SDK role. -/
theorem checkEnvironmentAPIKey_matrix_witness :
    checkEnvironmentAPIKey envAPIKey0 .sdk = none :=
  (checkEnvironmentAPIKey_matrix envAPIKey0 .sdk).2.2 rfl rfl rfl

/-- Case analysis of the GetEvaluations flow on a non-empty feature list:
the fingerprint is computed over the full list; a matching request id
short-circuits, a differing one returns the tag-filtered evaluations.
Shared by the C5 theorem and the C5/C10 counterexamples. -/
theorem getEvaluationsRPC_cases (features : List Feature)
    (evalFn : Persister.UserData → List Feature → List Persister.Evaluation)
    (req : GetEvaluationsRequest) (u : Persister.UserData)
    (htag : req.tag ≠ "") (huser : req.user = some u) (hid : u.id ≠ "")
    (f0 : Feature) (fs : List Feature) (hfeat : features = f0 :: fs) :
    (req.userEvaluationsId = UserEvaluationsID u.id u.data features →
        getEvaluationsRPC features evalFn req =
          .ok ⟨.full, none, UserEvaluationsID u.id u.data features⟩) ∧
    (req.userEvaluationsId ≠ UserEvaluationsID u.id u.data features →
        getEvaluationsRPC features evalFn req =
          .ok ⟨.full, some (evalFn u (features.filter (tagMatch req.tag))),
               UserEvaluationsID u.id u.data features⟩) := by
  subst hfeat
  constructor <;> intro h <;>
    simp [getEvaluationsRPC, htag, huser, hid, h]

/-- C5 counterexample: a valid request whose userEvaluationsId equals the
fingerprint over the tag-filtered feature set (here `[feature0]`, the filter
of a two-feature list by tag "test") does not receive that id back with no
evaluations: the gateway fingerprints the full unfiltered list, so the ids
differ and the response carries the (tag-filtered) evaluations and the
full-list id. -/
theorem getEvaluations_ueid_cex :
    [feature0, featureIOS].filter (tagMatch "test") = [feature0] ∧
    reqC5.userEvaluationsId =
      UserEvaluationsID "user-id-0" [("a", "value-a")] [feature0] ∧
    getEvaluationsRPC [feature0, featureIOS] (fun _ _ => []) reqC5 =
      Except.ok ⟨.full, some [],
        UserEvaluationsID "user-id-0" [("a", "value-a")] [feature0, featureIOS]⟩ ∧
    UserEvaluationsID "user-id-0" [("a", "value-a")] [feature0, featureIOS] ≠
      reqC5.userEvaluationsId := by
  have h2 : reqC5.userEvaluationsId = "ueid/user-id-0/a=value-a;/feature-0:1;" := by
    decide
  have hA : UserEvaluationsID user0.id user0.data [feature0, featureIOS] =
      "ueid/user-id-0/a=value-a;/feature-0:1;feature-ios:2;" := by
    decide
  have hne : reqC5.userEvaluationsId ≠
      UserEvaluationsID user0.id user0.data [feature0, featureIOS] := by
    rw [h2, hA]
    decide
  have hresp := (getEvaluationsRPC_cases [feature0, featureIOS] (fun _ _ => [])
    reqC5 user0 (by decide) rfl (by decide) feature0 [featureIOS] rfl).2 hne
  exact ⟨by decide, rfl, hresp, fun h => hne h.symm⟩

/-- C5 (amended): for every valid GetEvaluations request against a non-empty
feature list, the fresh id is computed over the full unfiltered feature list:
when the request's userEvaluationsId equals that id, the response has state
FULL, carries that same id, and contains no evaluations; when the request's
id differs (or is absent), the response carries the newly computed id
together with the evaluations of the tag-filtered features. -/
theorem getEvaluations_ueid_short_circuit (features : List Feature)
    (evalFn : Persister.UserData → List Feature → List Persister.Evaluation)
    (req : GetEvaluationsRequest) (u : Persister.UserData)
    (htag : req.tag ≠ "") (huser : req.user = some u) (hid : u.id ≠ "")
    (f0 : Feature) (fs : List Feature) (hfeat : features = f0 :: fs) :
    (req.userEvaluationsId = UserEvaluationsID u.id u.data features →
        getEvaluationsRPC features evalFn req =
          .ok ⟨.full, none, UserEvaluationsID u.id u.data features⟩) ∧
    (req.userEvaluationsId ≠ UserEvaluationsID u.id u.data features →
        getEvaluationsRPC features evalFn req =
          .ok ⟨.full, some (evalFn u (features.filter (tagMatch req.tag))),
               UserEvaluationsID u.id u.data features⟩) :=
  getEvaluationsRPC_cases features evalFn req u htag huser hid f0 fs hfeat

/-- C5 witness: a concrete request carrying the id freshly computed over the
full feature list receives FULL, the same id, and no evaluations. -/
theorem getEvaluations_ueid_witness :
    getEvaluationsRPC [feature0] (fun _ _ => []) reqC5 =
      .ok ⟨.full, none, UserEvaluationsID "user-id-0" [("a", "value-a")] [feature0]⟩ :=
  (getEvaluations_ueid_short_circuit [feature0] (fun _ _ => []) reqC5 user0
    (by decide) rfl (by decide) feature0 [] rfl).1 rfl

/-- C10 counterexample: a valid request whose tag-filtered feature set is
empty (tag "test" against the ios-tagged feature) but whose full feature
list is not does not receive an empty userEvaluationsId: the response
carries the non-empty fingerprint of the full list, together with the (here
empty) evaluations of the filtered set. -/
theorem getEvaluations_zero_feature_cex :
    [featureIOS].filter (tagMatch "test") = [] ∧
    getEvaluationsRPC [featureIOS] (fun _ _ => []) reqC10 =
      Except.ok ⟨.full, some [],
        UserEvaluationsID "user-id-0" [("a", "value-a")] [featureIOS]⟩ ∧
    UserEvaluationsID "user-id-0" [("a", "value-a")] [featureIOS] ≠ "" := by
  have hB : UserEvaluationsID user0.id user0.data [featureIOS] =
      "ueid/user-id-0/a=value-a;/feature-ios:2;" := by
    decide
  have hne : reqC10.userEvaluationsId ≠
      UserEvaluationsID user0.id user0.data [featureIOS] := by
    rw [hB]
    decide
  have hresp := (getEvaluationsRPC_cases [featureIOS] (fun _ _ => [])
    reqC10 user0 (by decide) rfl (by decide) featureIOS [] rfl).2 hne
  refine ⟨by decide, hresp, ?_⟩
  rw [show UserEvaluationsID "user-id-0" [("a", "value-a")] [featureIOS] =
      "ueid/user-id-0/a=value-a;/feature-ios:2;" from hB]
  decide

/-- C10 (amended): for every valid GetEvaluations request for which the full
feature list (not merely the tag-filtered set) is empty, the response has
state FULL, nil evaluations and an empty userEvaluationsId — and the
fingerprint of the empty feature set is not empty, so the empty id is a
special case rather than a fingerprint. -/
theorem getEvaluations_zero_feature (features : List Feature)
    (evalFn : Persister.UserData → List Feature → List Persister.Evaluation)
    (req : GetEvaluationsRequest) (u : Persister.UserData)
    (htag : req.tag ≠ "") (huser : req.user = some u) (hid : u.id ≠ "")
    (hempty : features = []) :
    getEvaluationsRPC features evalFn req =
      .ok ⟨.full, none, ""⟩ ∧
    UserEvaluationsID u.id u.data [] ≠ "" := by
  subst hempty
  constructor
  · simp [getEvaluationsRPC, htag, huser, hid]
  · intro h
    have h2 := congrArg String.length h
    simp [UserEvaluationsID, String.length_append] at h2
    exact absurd h2.1.1.1.1.1 (by decide)

/-- C10 witness: a concrete request against an empty feature list receives
FULL, nil evaluations and the empty id. -/
theorem getEvaluations_zero_feature_witness :
    getEvaluationsRPC [] (fun _ _ => []) reqC10 =
      .ok ⟨.full, none, ""⟩ :=
  (getEvaluations_zero_feature [] (fun _ _ => []) reqC10 user0
    (by decide) rfl (by decide) rfl).1

theorem perEventError_key {upsertOk : Persister.EvaluationEvent → Bool}
    {ev : GatewayEvent} {p : String × RegisterError}
    (h : perEventError upsertOk ev = some p) : p.1 = ev.id := by
  unfold perEventError at h
  split at h
  · cases h
    rfl
  · split at h
    · cases h
    · cases h
      rfl
  · cases h

/-- C6: For every RegisterEvents call with a non-empty list of events that
all have non-empty ids, the call itself succeeds even when individual events
fail: an unknown inner payload yields the per-event entry
{retriable: false, "Invalid message type"}, an evaluation event whose
per-user upsert fails yields {retriable: true,
"Failed to upsert user evaluation"}, and (with distinct event ids) an event
without error is absent from the errors map. -/
theorem registerEvents_per_event (upsertOk : Persister.EvaluationEvent → Bool)
    (events : List GatewayEvent) (hne : events ≠ [])
    (hids : ∀ ev ∈ events, ev.id ≠ "")
    (hnodup : (events.map GatewayEvent.id).Nodup) :
    ∃ errs, registerEvents upsertOk events = .ok errs ∧
      (∀ ev ∈ events, ev.inner = .unknown →
          (ev.id, RegisterError.mk false "Invalid message type") ∈ errs) ∧
      (∀ ev ∈ events, ∀ e, ev.inner = .evaluation e → upsertOk e = false →
          (ev.id, RegisterError.mk true "Failed to upsert user evaluation") ∈ errs) ∧
      (∀ ev ∈ events, perEventError upsertOk ev = none → ∀ p ∈ errs, p.1 ≠ ev.id) := by
  have hisEmpty : events.isEmpty = false := by
    cases events with
    | nil => exact absurd rfl hne
    | cons a l => rfl
  have hany : (events.any fun ev => ev.id == "") = false := by
    cases hA : events.any fun ev => ev.id == ""
    · rfl
    · rcases List.any_eq_true.mp hA with ⟨ev, hmem, hevid⟩
      simp only [beq_iff_eq] at hevid
      exact absurd hevid (hids ev hmem)
  refine ⟨events.filterMap (perEventError upsertOk), ?_, ?_, ?_, ?_⟩
  · simp [registerEvents, hisEmpty, hany]
  · intro ev hmem hun
    exact List.mem_filterMap.mpr ⟨ev, hmem, by simp [perEventError, hun]⟩
  · intro ev hmem e heval hup
    exact List.mem_filterMap.mpr ⟨ev, hmem, by simp [perEventError, heval, hup]⟩
  · intro ev hmem hnone p hp hpe
    rcases List.mem_filterMap.mp hp with ⟨ev2, hmem2, hsome⟩
    have hkey : p.1 = ev2.id := perEventError_key hsome
    have : ev2 = ev := nodup_map_inj hnodup hmem2 hmem (hkey ▸ hpe)
    rw [this] at hsome
    rw [hnone] at hsome
    cases hsome

/-- C6 witness: a concrete call with one unknown-typed and one metrics event
succeeds and reports only the unknown one. -/
theorem registerEvents_per_event_witness :
    ∃ errs, registerEvents (fun _ => true) eventsC6 = .ok errs ∧
      ("id-unknown", RegisterError.mk false "Invalid message type") ∈ errs := by
  obtain ⟨errs, h1, h2, _, _⟩ :=
    registerEvents_per_event (fun _ => true) eventsC6 (by decide) (by decide) (by decide)
  exact ⟨errs, h1, h2 ⟨"id-unknown", .unknown⟩ (by decide) rfl⟩

end Gateway

end Bucketeer
